import Mathlib

/-!
Verification development for the Variant analytics dashboard
(`src/app/app.py`, `src/app/charts.py`).

The Python code is shallowly embedded:
* Python dicts become association lists (`alookup` / `aupdate` / `aerase`
  model `d.get`, `d[k] = v`, `del d[k]`; dict assignment replaces an
  existing binding in place and appends a fresh binding at the end,
  exactly as insertion-ordered Python dicts do);
* mutation of the module-level `_sessions` registry becomes explicit
  state passing;
* `datetime.now()` and `secrets.token_hex(32)` become explicit `now` /
  `fresh_token` parameters;
* dates are modelled abstractly as naturals (their order is the date
  order); `str(d)` in the column-label map becomes `dateLabel`;
* Python numbers are exact rationals; `round` (banker's rounding,
  round-half-to-even) is `pyRound`; a value on which `float` raises is
  the `RawVal.nonNumeric` constructor, `float('nan')` is `RawVal.nan`,
  and Python `None` is `Option.none`;
* the static `METRICS_CONFIG` / `DEFAULT_USERS` tables imported from
  `config` are passed as parameters (`MetricsConfig`, the user
  directory); the `IMPORTS_OK` module flag is the `imports_ok`
  parameter.
-/

/-! ## Association lists modelling Python dicts -/

/-- `d.get(k)` / `k in d`: the value bound to the first (unique) binding
of `k`, if any. -/
def alookup {α β : Type} [DecidableEq α] : List (α × β) → α → Option β
  | [], _ => none
  | (k', v) :: t, k => if k' = k then some v else alookup t k

/-- `d[k] = v` on an insertion-ordered dict: replace the binding in
place if `k` is present, else append a new binding at the end. -/
def aupdate {α β : Type} [DecidableEq α] : List (α × β) → α → β → List (α × β)
  | [], k, v => [(k, v)]
  | (k', v') :: t, k, v => if k' = k then (k', v) :: t else (k', v') :: aupdate t k v

/-- `del d[k]` (on a dict no key is duplicated, so dropping every
binding of `k` is the same as dropping the one binding). -/
def aerase {α β : Type} [DecidableEq α] : List (α × β) → α → List (α × β)
  | [], _ => []
  | (k', v') :: t, k => if k' = k then aerase t k else (k', v') :: aerase t k

/-! ## Python `round` on exact rationals -/

/-- Python's `round` to the nearest integer, ties to the even integer
(banker's rounding). Away from a tie this is ordinary nearest-integer
rounding; at a tie `2 * round (q / 2)` picks the even neighbour. -/
def pyRound (q : ℚ) : ℤ :=
  if q - ⌊q⌋ = (1 : ℚ) / 2 then 2 * round (q / 2) else round q

/-- Python's `round(x, 2)`: round to two decimal places. -/
def pyRound2 (q : ℚ) : ℚ :=
  (pyRound (q * 100) : ℚ) / 100

/-! ## Sessions (`_sessions`, `authenticate`, `get_session`, `logout`) -/

/-- One entry of the `DEFAULT_USERS` directory:
`{"password": ..., "name": ..., "role": ...}`. -/
structure User where
  password : String
  name : String
  role : String
deriving DecidableEq

/-- One stored session dict:
`{"user_id": ..., "name": ..., "role": ..., "expires_at": ...}`. -/
structure Session where
  user_id : String
  name : String
  role : String
  expires_at : ℕ
deriving DecidableEq

/-- The module-level `_sessions` dict, passed explicitly. -/
abbrev Sessions := List (String × Session)

/-- `timedelta(days=1)` in seconds. -/
def DAY_SECONDS : ℕ := 86400

/-- `authenticate(user_id, password)` from `src/app/app.py`. The
module globals become parameters: `imports_ok` is `IMPORTS_OK`,
`users` is `DEFAULT_USERS`, `st` is the `_sessions` dict,
`fresh_token` is the `secrets.token_hex(32)` draw and `now` the
current time. Returns the `(success, session_id, user)` triple
together with the updated session dict. -/
def authenticate (imports_ok : Bool) (users : List (String × User)) (st : Sessions)
    (user_id password fresh_token : String) (now : ℕ) :
    (Bool × Option String × Option User) × Sessions :=
  if imports_ok = false then ((false, none, none), st)
  else
    match alookup users user_id with
    | none => ((false, none, none), st)
    | some user =>
      if user.password ≠ password then ((false, none, none), st)
      else
        ((true, some fresh_token, some user),
          aupdate st fresh_token
            { user_id := user_id, name := user.name, role := user.role,
              expires_at := now + DAY_SECONDS })

/-- `get_session(session_id)` from `src/app/app.py`: `not session_id`
is the empty-string test, `datetime.now() > expires_at` is
`expires_at < now`, and the expiry branch deletes the record. Returns
the result together with the updated session dict. -/
def get_session (now : ℕ) (st : Sessions) (session_id : String) :
    Option Session × Sessions :=
  if session_id = "" then (none, st)
  else
    match alookup st session_id with
    | none => (none, st)
    | some session =>
      if session.expires_at < now then (none, aerase st session_id)
      else (some session, st)

/-- `logout(session_id)` from `src/app/app.py`. -/
def logout (st : Sessions) (session_id : String) : Sessions :=
  aerase st session_id

/-! ## Metric formatting (`format_metric_value`, `get_display_metric_name`) -/

/-- A raw cell value as the formatter sees it (besides Python `None`,
which is `Option.none` one level up): an exact numeric value, a float
NaN (for which `pd.isna` is true), or a value on which `float()`
raises (e.g. a non-numeric string). -/
inductive RawVal where
  | num (q : ℚ)
  | nan
  | nonNumeric (s : String)
deriving DecidableEq

/-- One entry of the static `METRICS_CONFIG` table; each field models
an optional dict key (`"format"`, `"display"`, `"suffix"`). -/
structure MetricCfg where
  format : Option String
  display : Option String
  suffix : Option String
deriving DecidableEq

/-- The `METRICS_CONFIG` dict, passed as a parameter. -/
abbrev MetricsConfig := List (String × MetricCfg)

/-- `METRICS_CONFIG.get(metric_name, {}).get("format", "number")`. -/
def formatTypeOf (cfg : MetricsConfig) (metric_name : String) : String :=
  ((alookup cfg metric_name).bind (fun c => c.format)).getD "number"

/-- `format_metric_value(value, metric_name, is_crystal_ball)` from
`src/app/app.py`. `value is None or pd.isna(value)` returns `none`;
a `nonNumeric` value makes `float(value)` raise inside the `try`,
which the bare `except` turns into `none`. -/
def format_metric_value (cfg : MetricsConfig) (value : Option RawVal)
    (metric_name : String) (is_crystal_ball : Bool) : Option ℚ :=
  match value with
  | none => none
  | some RawVal.nan => none
  | some (RawVal.nonNumeric _) => none
  | some (RawVal.num q) =>
    if metric_name = "Rebills" ∧ is_crystal_ball = true then some ((pyRound q : ℤ) : ℚ)
    else if formatTypeOf cfg metric_name = "percent" then some (pyRound2 (q * 100))
    else some (pyRound2 q)

/-- `get_display_metric_name(metric_name)` from `src/app/app.py`:
`config.get("display", metric_name) + config.get("suffix", "")`. -/
def get_display_metric_name (cfg : MetricsConfig) (metric_name : String) : String :=
  (((alookup cfg metric_name).bind (fun c => c.display)).getD metric_name)
    ++ (((alookup cfg metric_name).bind (fun c => c.suffix)).getD "")

/-! ## Pivot transformer (`process_pivot_data`) -/

/-- `str(d)` for a date modelled as a natural: the display label of a
date column in the pivot output. -/
def dateLabel (d : ℕ) : String := toString d

/-- The first-seen distinct elements of a list, in order of first
occurrence — the `seen`-set loop collecting `plan_combos`. -/
def distinctFirstSeen {α : Type} [DecidableEq α] : List α → List α
  | [] => []
  | a :: l => a :: (distinctFirstSeen l).filter (fun b => b ≠ a)

/-- Python's lexicographic comparison of pairs, as used by
`plan_combos.sort(key=lambda x: (x[0], x[1]))` and `sorted(zip(...))`. -/
def lexLe {α β : Type} [LinearOrder α] [LinearOrder β] (x y : α × β) : Prop :=
  x.1 < y.1 ∨ (x.1 = y.1 ∧ x.2 ≤ y.2)

instance {α β : Type} [LinearOrder α] [LinearOrder β] :
    DecidableRel (lexLe (α := α) (β := β)) := fun x y => by
  unfold lexLe
  infer_instance

instance {α β : Type} [LinearOrder α] [LinearOrder β] :
    IsTotal (α × β) (lexLe (α := α) (β := β)) := by
  constructor
  intro x y
  rcases lt_trichotomy x.1 y.1 with h | h | h
  · exact Or.inl (Or.inl h)
  · rcases le_total x.2 y.2 with h2 | h2
    · exact Or.inl (Or.inr ⟨h, h2⟩)
    · exact Or.inr (Or.inr ⟨h.symm, h2⟩)
  · exact Or.inr (Or.inl h)

instance {α β : Type} [LinearOrder α] [LinearOrder β] :
    IsTrans (α × β) (lexLe (α := α) (β := β)) := by
  constructor
  rintro x y z (h1 | ⟨h1, h1'⟩) (h2 | ⟨h2, h2'⟩)
  · exact Or.inl (h1.trans h2)
  · exact Or.inl (h2 ▸ h1)
  · exact Or.inl (h1 ▸ h2)
  · exact Or.inr ⟨h1.trans h2, h1'.trans h2'⟩

/-- `sorted(set(dates), reverse=True)`: the distinct dates in
descending order. -/
def uniqueDates (dates : List ℕ) : List ℕ :=
  (dates.dedup).insertionSort (fun a b => a ≥ b)

/-- The column-oriented pivot result set (`pivot_data`): parallel
sequences keyed by column name. `Reporting_Date` is optional because
the code tests `"Reporting_Date" not in pivot_data`; `metrics` is the
dict of per-metric value columns (`metric in pivot_data`). -/
structure PivotData where
  Reporting_Date : Option (List ℕ)
  App_Name : List String
  Plan_Name : List String
  metrics : List (String × List (Option RawVal))

/-- The distinct `(App_Name, Plan_Name)` pairs in first-seen order,
then sorted ascending lexicographically. -/
def planCombos (p : PivotData) : List (String × String) :=
  (distinctFirstSeen (p.App_Name.zip p.Plan_Name)).insertionSort lexLe

/-- The key `(App_Name[i], Plan_Name[i], Reporting_Date[i])` of input
row `i` (the default values are never reached on well-formed input,
where every column has the length of `Reporting_Date`). -/
def keyAt (p : PivotData) (dates : List ℕ) (i : ℕ) : String × String × ℕ :=
  (p.App_Name.getD i "", p.Plan_Name.getD i "", dates.getD i 0)

/-- The nested `lookup` dict: key triple to per-metric raw values. -/
abbrev Lookup := List ((String × String × ℕ) × List (String × Option RawVal))

/-- One iteration of the lookup-building loop at row index `i`:
`lookup[key]` is created empty if absent, then
`lookup[key][metric] = pivot_data[metric][i]` runs for every selected
metric whose column is present. -/
def updateLookup (p : PivotData) (dates : List ℕ) (selected : List String)
    (lk : Lookup) (i : ℕ) : Lookup :=
  let key := keyAt p dates i
  let inner := (alookup lk key).getD []
  let inner2 := selected.foldl (fun acc m =>
    match alookup p.metrics m with
    | none => acc
    | some col => aupdate acc m (col.getD i none)) inner
  aupdate lk key inner2

/-- The full `lookup` dict after the loop over
`range(len(pivot_data["Reporting_Date"]))`. -/
def buildLookup (p : PivotData) (dates : List ℕ) (selected : List String) : Lookup :=
  (List.range dates.length).foldl (updateLookup p dates selected) []

/-- `lookup.get(key, {}).get(metric, None)`: the raw value the cell
loop reads back for a key and metric (a stored Python `None` and a
missing binding both read back as `none`). -/
def rawAt (lk : Lookup) (key : String × String × ℕ) (m : String) : Option RawVal :=
  (alookup ((alookup lk key).getD []) m).getD none

/-- One output row dict: the `App`, `Plan` and `Metric` fields
followed by one `(date label, formatted value)` cell per distinct
date, in the order of `unique_dates`. -/
structure Row where
  App : String
  Plan : String
  Metric : String
  cells : List (String × Option ℚ)
deriving DecidableEq

/-- The row emitted for one `(app_name, plan_name)` pair and one
metric: cells are formatted from the lookup's raw values. -/
def pivotRow (cfg : MetricsConfig) (lk : Lookup) (uds : List ℕ) (cb : Bool)
    (c : String × String) (m : String) : Row :=
  { App := c.1, Plan := c.2, Metric := get_display_metric_name cfg m,
    cells := uds.map (fun d =>
      (dateLabel d, format_metric_value cfg (rawAt lk (c.1, c.2, d) m) m cb)) }

/-- The full row list of the emission loop: outer loop over the sorted
`plan_combos`, inner loop over `selected_metrics`. -/
def pivotRows (cfg : MetricsConfig) (p : PivotData) (dates : List ℕ)
    (selected : List String) (cb : Bool) : List Row :=
  (planCombos p).flatMap (fun c =>
    selected.map (fun m =>
      pivotRow cfg (buildLookup p dates selected) (uniqueDates dates) cb c m))

/-- `process_pivot_data(pivot_data, selected_metrics, is_crystal_ball)`
from `src/app/app.py`. A Python-falsy `pivot_data` (`None` or `{}`) is
`none` (an empty dict also lacks the `Reporting_Date` key, which the
second disjunct of the guard covers). Returns the list of row dicts
fed to `pd.DataFrame` (the frame construction itself is presentation
glue). -/
def process_pivot_data (cfg : MetricsConfig) (pivot_data : Option PivotData)
    (selected_metrics : List String) (is_crystal_ball : Bool) : Option (List Row) :=
  match pivot_data with
  | none => none
  | some p =>
    match p.Reporting_Date with
    | none => none
    | some dates =>
      if dates.length = 0 then none
      else some (pivotRows cfg p dates selected_metrics is_crystal_ball)

/-! ## Chart series builder (`build_line_chart`, `src/app/charts.py`) -/

/-- The column-oriented chart result set (`data`): `Plan_Name` is
optional because the code tests `"Plan_Name" not in data`; metric
values are exact rationals or Python `None`. -/
structure ChartData where
  Plan_Name : Option (List String)
  Reporting_Date : List ℕ
  metric_value : List (Option ℚ)

/-- One Plotly trace as far as the data model goes: the plan name and
the `(x, y)` points in plotted order. Styling (color, hover template,
axis layout) is presentation metadata with no data content. -/
structure Trace where
  name : String
  points : List (ℕ × ℚ)
deriving DecidableEq

/-- The data content of the returned figure: either the "no data
available" placeholder or a list of traces. -/
structure Figure where
  no_data : Bool
  traces : List Trace
deriving DecidableEq

/-- The observation triples `(plan, date, value-or-0)` the
`plan_data`-building loop walks over, with `value if value is not
None else 0` applied. On well-formed input all three columns have the
same length, so the truncating `zip` visits every row. -/
def chartObs (names : List String) (d : ChartData) : List (String × ℕ × ℚ) :=
  (names.zip (d.Reporting_Date.zip d.metric_value)).map
    (fun x => (x.1, x.2.1, x.2.2.getD 0))

/-- `plan_data[plan]`: the `(date, value)` pairs of one plan, in input
order. -/
def planPoints (obs : List (String × ℕ × ℚ)) (plan : String) : List (ℕ × ℚ) :=
  (obs.filter (fun x => x.1 = plan)).map (fun x => x.2)

/-- `sorted(set(data["Plan_Name"]))`. -/
def uniquePlans (names : List String) : List String :=
  (names.dedup).insertionSort (fun a b => a ≤ b)

/-- `build_line_chart(data, ...)` from `src/app/charts.py`, data
content only. The empty-data guard returns the annotated empty figure
and `[]`; otherwise one trace is added per unique plan present in
`plan_data` (`if plan in plan_data`), with its `(date, value)` pairs
sorted by Python's lexicographic tuple order. `display_name`,
`format_type`, `date_range` and `theme` only affect styling, never
which points exist, so they are not part of the data model. -/
def build_line_chart (data : Option ChartData) : Figure × List String :=
  match data with
  | none => ({ no_data := true, traces := [] }, [])
  | some d =>
    match d.Plan_Name with
    | none => ({ no_data := true, traces := [] }, [])
    | some names =>
      if names.length = 0 then ({ no_data := true, traces := [] }, [])
      else
        let obs := chartObs names d
        let traces := (uniquePlans names).filterMap (fun plan =>
          let pts := planPoints obs plan
          if pts = [] then none
          else some { name := plan, points := pts.insertionSort lexLe })
        ({ no_data := false, traces := traces }, uniquePlans names)

/-- A small concrete pivot result set: one entity group, two plans,
two dates, one present metric column (`M1`). -/
def samplePivot : PivotData :=
  { Reporting_Date := some [1, 2], App_Name := ["A", "A"],
    Plan_Name := ["P1", "P2"],
    metrics := [("M1", [some (RawVal.num 1), none])] }

/-- A concrete pivot result set in which the same
`(App_Name, Plan_Name, Reporting_Date)` key occurs on two rows, with
metric `M` equal to 1 on the first and 2 on the second. -/
def dupPivot : PivotData :=
  { Reporting_Date := some [5, 5], App_Name := ["A", "A"],
    Plan_Name := ["P", "P"],
    metrics := [("M", [some (RawVal.num 1), some (RawVal.num 2)])] }

/-- The formatting rule in the spec's words (refinement companion for
the claim about `format_metric_value`): null for a null or
not-a-number raw value; the count-like alternate-scenario metric
(`Rebills` with the crystal-ball flag) rounds to the nearest integer;
a percent-format metric multiplies by 100 and rounds to 2 decimal
places; anything else rounds to 2 decimal places; an exception during
numeric coercion yields null. -/
def formatValue_spec (cfg : MetricsConfig) (value : Option RawVal)
    (metric_name : String) (is_crystal_ball : Bool) : Option ℚ :=
  match value with
  | none => none
  | some RawVal.nan => none
  | some (RawVal.nonNumeric _) => none
  | some (RawVal.num q) =>
    if metric_name = "Rebills" ∧ is_crystal_ball = true then some ((pyRound q : ℤ) : ℚ)
    else if formatTypeOf cfg metric_name = "percent" then some (pyRound2 (q * 100))
    else some (pyRound2 q)

@[simp] theorem alookup_nil {α β : Type} [DecidableEq α] (k : α) :
    alookup ([] : List (α × β)) k = none := rfl

@[simp] theorem alookup_cons {α β : Type} [DecidableEq α] (k' : α) (v : β) (t : List (α × β))
    (k : α) : alookup ((k', v) :: t) k = if k' = k then some v else alookup t k := rfl

theorem alookup_aupdate_self {α β : Type} [DecidableEq α] (l : List (α × β)) (k : α) (v : β) :
    alookup (aupdate l k v) k = some v := by
  induction l with
  | nil => simp [aupdate]
  | cons hd t ih =>
      obtain ⟨k', v'⟩ := hd
      by_cases h : k' = k <;> simp [aupdate, h, ih]

theorem alookup_aupdate_ne {α β : Type} [DecidableEq α] (l : List (α × β)) (k k₀ : α) (v : β)
    (hne : k₀ ≠ k) : alookup (aupdate l k v) k₀ = alookup l k₀ := by
  induction l with
  | nil => simp [aupdate, hne.symm]
  | cons hd t ih =>
      obtain ⟨k', v'⟩ := hd
      by_cases h : k' = k
      · subst h
        simp [aupdate, hne.symm]
      · simp [aupdate, h, ih]

theorem aupdate_eq_append {α β : Type} [DecidableEq α] (l : List (α × β)) (k : α) (v : β)
    (h : alookup l k = none) : aupdate l k v = l ++ [(k, v)] := by
  induction l with
  | nil => simp [aupdate]
  | cons hd t ih =>
      obtain ⟨k', v'⟩ := hd
      by_cases hk : k' = k
      · simp [hk] at h
      · simp only [alookup_cons, hk, if_false] at h
        simp [aupdate, hk, ih h]

@[simp] theorem alookup_aerase_self {α β : Type} [DecidableEq α] (l : List (α × β)) (k : α) :
    alookup (aerase l k) k = none := by
  induction l with
  | nil => rfl
  | cons hd t ih =>
      obtain ⟨k', v'⟩ := hd
      by_cases h : k' = k <;> simp [aerase, h, ih]

theorem alookup_aerase_ne {α β : Type} [DecidableEq α] (l : List (α × β)) (k k₀ : α)
    (hne : k₀ ≠ k) : alookup (aerase l k) k₀ = alookup l k₀ := by
  induction l with
  | nil => rfl
  | cons hd t ih =>
      obtain ⟨k', v'⟩ := hd
      by_cases h : k' = k
      · subst h
        simp [aerase, hne.symm, ih]
      · simp [aerase, h, ih]

theorem pyRound_two : pyRound 2 = 2 := by
  norm_num [pyRound, round_eq]

theorem pyRound_half_to_even_down : pyRound (5/2 : ℚ) = 2 := by
  norm_num [pyRound, round_eq]

theorem pyRound_half_to_even_up : pyRound (7/2 : ℚ) = 4 := by
  norm_num [pyRound, round_eq]

theorem pyRound2_fixed : pyRound2 (1234/100 : ℚ) = 1234/100 := by
  norm_num [pyRound2, pyRound, round_eq]

/-! ## Helper lemmas -/

theorem mem_uniquePlans (names : List String) (x : String) :
    x ∈ uniquePlans names ↔ x ∈ names := by
  rw [uniquePlans, (List.perm_insertionSort _ _).mem_iff, List.mem_dedup]

theorem nodup_uniquePlans (names : List String) : (uniquePlans names).Nodup :=
  (List.perm_insertionSort _ _).nodup_iff.mpr (List.nodup_dedup names)

theorem sorted_uniquePlans (names : List String) :
    (uniquePlans names).Sorted (fun a b => a ≤ b) :=
  List.sorted_insertionSort _ _

theorem chartObs_map_fst (names : List String) (d : ChartData)
    (h1 : d.Reporting_Date.length = names.length)
    (h2 : d.metric_value.length = names.length) :
    (chartObs names d).map Prod.fst = names := by
  rw [chartObs, List.map_map]
  have hz : names.length ≤ (d.Reporting_Date.zip d.metric_value).length := by
    rw [List.length_zip, h1, h2]
    omega
  calc ((names.zip (d.Reporting_Date.zip d.metric_value)).map
          ((Prod.fst) ∘ (fun x => (x.1, x.2.1, x.2.2.getD 0))))
      = (names.zip (d.Reporting_Date.zip d.metric_value)).map Prod.fst := by
        apply List.map_congr_left
        intro x _
        rfl
    _ = names := List.map_fst_zip _ _ hz

theorem planPoints_ne_nil (obs : List (String × ℕ × ℚ)) (plan : String)
    (h : plan ∈ obs.map Prod.fst) : planPoints obs plan ≠ [] := by
  rw [List.mem_map] at h
  obtain ⟨x, hx, hfst⟩ := h
  rw [planPoints]
  intro hcon
  rw [List.map_eq_nil_iff, List.filter_eq_nil_iff] at hcon
  exact hcon x hx (by simp [hfst])

theorem traces_filterMap_eq_map (obs : List (String × ℕ × ℚ)) :
    ∀ (l : List String), (∀ p ∈ l, planPoints obs p ≠ []) →
    (l.filterMap (fun plan =>
      let pts := planPoints obs plan
      if pts = [] then none
      else some ({ name := plan, points := pts.insertionSort lexLe } : Trace))) =
    l.map (fun plan =>
      ({ name := plan, points := (planPoints obs plan).insertionSort lexLe } : Trace)) := by
  intro l
  induction l with
  | nil => intro _; rfl
  | cons a t ih =>
      intro h
      have ha : planPoints obs a ≠ [] := h a (List.mem_cons_self a t)
      have ht : ∀ p ∈ t, planPoints obs p ≠ [] := fun p hp => h p (List.mem_cons_of_mem a hp)
      simp [List.filterMap_cons, ha, ih ht]

theorem sorted_fst_of_sorted_lexLe {α β : Type} [LinearOrder α] [LinearOrder β]
    (l : List (α × β)) (h : l.Sorted lexLe) :
    (l.map Prod.fst).Sorted (fun a b => a ≤ b) := by
  refine List.Pairwise.map Prod.fst ?_ h
  rintro a b (hlt | ⟨heq, _⟩)
  · exact le_of_lt hlt
  · exact le_of_eq heq

/-- Under the well-formedness invariant (all three columns the same
length) and a non-empty plan list, `build_line_chart` has this closed
form: one trace per unique plan, points lexicographically sorted. -/
theorem build_line_chart_closed_form (d : ChartData) (names : List String)
    (hn : d.Plan_Name = some names) (hne : names ≠ [])
    (h1 : d.Reporting_Date.length = names.length)
    (h2 : d.metric_value.length = names.length) :
    build_line_chart (some d) =
      ({ no_data := false,
         traces := (uniquePlans names).map (fun plan =>
           { name := plan,
             points := (planPoints (chartObs names d) plan).insertionSort lexLe }) },
       uniquePlans names) := by
  have hcover : ∀ p ∈ uniquePlans names, planPoints (chartObs names d) p ≠ [] := by
    intro p hp
    apply planPoints_ne_nil
    rw [chartObs_map_fst names d h1 h2]
    exact (mem_uniquePlans names p).mp hp
  have hlen : ¬ names.length = 0 := by
    intro hc
    exact hne (List.length_eq_zero.mp hc)
  simp only [build_line_chart, hn, hlen, if_false]
  rw [traces_filterMap_eq_map _ _ hcover]

theorem mem_distinctFirstSeen {α : Type} [DecidableEq α] (l : List α) (a : α) :
    a ∈ distinctFirstSeen l ↔ a ∈ l := by
  induction l with
  | nil => simp [distinctFirstSeen]
  | cons b t ih =>
      simp only [distinctFirstSeen, List.mem_cons, List.mem_filter]
      constructor
      · rintro (rfl | ⟨h1, _⟩)
        · exact Or.inl rfl
        · exact Or.inr (ih.mp h1)
      · rintro (rfl | h)
        · exact Or.inl rfl
        · by_cases hab : a = b
          · exact Or.inl hab
          · exact Or.inr ⟨ih.mpr h, by simpa using hab⟩

theorem nodup_distinctFirstSeen {α : Type} [DecidableEq α] (l : List α) :
    (distinctFirstSeen l).Nodup := by
  induction l with
  | nil => simp [distinctFirstSeen]
  | cons b t ih =>
      rw [distinctFirstSeen, List.nodup_cons]
      refine ⟨?_, ih.filter _⟩
      intro hmem
      rw [List.mem_filter] at hmem
      simpa using hmem.2

theorem planCombos_sorted (p : PivotData) : (planCombos p).Sorted lexLe :=
  List.sorted_insertionSort _ _

theorem planCombos_nodup (p : PivotData) : (planCombos p).Nodup :=
  (List.perm_insertionSort _ _).nodup_iff.mpr (nodup_distinctFirstSeen _)

theorem mem_planCombos (p : PivotData) (c : String × String) :
    c ∈ planCombos p ↔ c ∈ p.App_Name.zip p.Plan_Name := by
  rw [planCombos, (List.perm_insertionSort _ _).mem_iff, mem_distinctFirstSeen]

theorem uniqueDates_sorted (dates : List ℕ) :
    (uniqueDates dates).Sorted (fun a b => a ≥ b) :=
  List.sorted_insertionSort _ _

theorem uniqueDates_nodup (dates : List ℕ) : (uniqueDates dates).Nodup :=
  (List.perm_insertionSort _ _).nodup_iff.mpr (List.nodup_dedup _)

theorem mem_uniqueDates (dates : List ℕ) (x : ℕ) :
    x ∈ uniqueDates dates ↔ x ∈ dates := by
  rw [uniqueDates, (List.perm_insertionSort _ _).mem_iff, List.mem_dedup]

theorem length_flatMap_const {α β : Type} (l : List α) (f : α → List β) (k : ℕ)
    (h : ∀ a ∈ l, (f a).length = k) : (l.flatMap f).length = l.length * k := by
  induction l with
  | nil => simp
  | cons a t ih =>
      rw [List.flatMap_cons, List.length_append, h a (List.mem_cons_self a t),
        ih (fun x hx => h x (List.mem_cons_of_mem a hx)), List.length_cons]
      ring

/-- The per-row foldl over `selected_metrics` never touches the inner
binding of a metric whose column is absent from the result set. -/
theorem alookup_metricFold_absent (p : PivotData) (i : ℕ) (m : String)
    (habs : alookup p.metrics m = none) :
    ∀ (sel : List String) (acc : List (String × Option RawVal)),
      alookup (sel.foldl (fun acc m' =>
        match alookup p.metrics m' with
        | none => acc
        | some col => aupdate acc m' (col.getD i none)) acc) m = alookup acc m := by
  intro sel
  induction sel with
  | nil => intro acc; rfl
  | cons m' t ih =>
      intro acc
      rw [List.foldl_cons]
      match hcol : alookup p.metrics m' with
      | none => rw [ih]
      | some col =>
          rw [ih, alookup_aupdate_ne]
          intro hc
          rw [hc, hcol] at habs
          exact Option.noConfusion habs

/-- After processing any prefix of rows, the raw lookup value of an
absent metric is still `none` at every key. -/
theorem rawAt_foldl_absent (p : PivotData) (dates : List ℕ) (selected : List String)
    (m : String) (habs : alookup p.metrics m = none) :
    ∀ (idx : List ℕ) (lk : Lookup) (key : String × String × ℕ),
      rawAt (idx.foldl (updateLookup p dates selected) lk) key m = rawAt lk key m := by
  intro idx
  induction idx with
  | nil => intro lk key; rfl
  | cons i t ih =>
      intro lk key
      rw [List.foldl_cons, ih]
      show rawAt (updateLookup p dates selected lk i) key m = rawAt lk key m
      rw [updateLookup]
      by_cases hk : keyAt p dates i = key
      · rw [rawAt, hk, alookup_aupdate_self, Option.getD_some,
          alookup_metricFold_absent p i m habs]
        rw [rawAt]
      · rw [rawAt, alookup_aupdate_ne _ _ _ _ (fun hc => hk hc.symm), rawAt]

/-- A metric with no column in the result set reads back `none` from
the finished lookup at every key. -/
theorem rawAt_buildLookup_absent (p : PivotData) (dates : List ℕ) (selected : List String)
    (m : String) (habs : alookup p.metrics m = none) (key : String × String × ℕ) :
    rawAt (buildLookup p dates selected) key m = none := by
  rw [buildLookup, rawAt_foldl_absent p dates selected m habs]
  rfl

/-- The per-row foldl over `selected_metrics` leaves the binding of a
metric that is not among the selected ones unchanged. -/
theorem alookup_metricFold_not_mem (p : PivotData) (i : ℕ) (m : String) :
    ∀ (sel : List String) (acc : List (String × Option RawVal)), m ∉ sel →
      alookup (sel.foldl (fun acc m' =>
        match alookup p.metrics m' with
        | none => acc
        | some col => aupdate acc m' (col.getD i none)) acc) m = alookup acc m := by
  intro sel
  induction sel with
  | nil => intro acc _; rfl
  | cons m' t ih =>
      intro acc hnm
      have hne : m ≠ m' := fun hc => hnm (hc ▸ List.mem_cons_self m' t)
      have hnt : m ∉ t := fun hc => hnm (List.mem_cons_of_mem m' hc)
      rw [List.foldl_cons]
      match hcol : alookup p.metrics m' with
      | none => rw [ih _ hnt]
      | some col => rw [ih _ hnt, alookup_aupdate_ne _ _ _ _ hne]

/-- The per-row foldl over `selected_metrics` stores row `i`'s column
value for a selected metric whose column is present. -/
theorem alookup_metricFold_present (p : PivotData) (i : ℕ) (m : String)
    (col : List (Option RawVal)) (hcol : alookup p.metrics m = some col) :
    ∀ (sel : List String) (acc : List (String × Option RawVal)), m ∈ sel →
      alookup (sel.foldl (fun acc m' =>
        match alookup p.metrics m' with
        | none => acc
        | some col' => aupdate acc m' (col'.getD i none)) acc) m =
        some (col.getD i none) := by
  intro sel
  induction sel with
  | nil => intro acc h; exact absurd h (List.not_mem_nil m)
  | cons m' t ih =>
      intro acc hm
      rw [List.foldl_cons]
      by_cases hm' : m' = m
      · subst hm'
        rw [hcol]
        by_cases hmt : m' ∈ t
        · exact ih _ hmt
        · rw [alookup_metricFold_not_mem p i m' t _ hmt, alookup_aupdate_self]
      · have hmt : m ∈ t := by
          rcases List.mem_cons.mp hm with hc | hc
          · exact absurd hc.symm hm'
          · exact hc
        match hcol' : alookup p.metrics m' with
        | none => exact ih _ hmt
        | some col' => exact ih _ hmt

/-- Effect of processing one input row on the raw lookup value of a
present, selected metric: row `i` overwrites its own key and leaves
every other key alone. -/
theorem rawAt_updateLookup_present (p : PivotData) (dates : List ℕ)
    (selected : List String) (m : String) (col : List (Option RawVal))
    (hcol : alookup p.metrics m = some col) (hm : m ∈ selected)
    (lk : Lookup) (i : ℕ) (key : String × String × ℕ) :
    rawAt (updateLookup p dates selected lk i) key m =
      if keyAt p dates i = key then col.getD i none else rawAt lk key m := by
  rw [updateLookup]
  by_cases hk : keyAt p dates i = key
  · rw [if_pos hk, rawAt, hk, alookup_aupdate_self, Option.getD_some,
      alookup_metricFold_present p i m col hcol selected _ hm, Option.getD_some]
  · rw [if_neg hk, rawAt, alookup_aupdate_ne _ _ _ _ (fun hc => hk hc.symm), rawAt]

/-- After the lookup loop has processed the rows `idx`, the raw value
of a present, selected metric at a key is the column value of the last
row in `idx` bearing that key (or whatever the loop started from if no
row in `idx` bears it). -/
theorem rawAt_foldl_present (p : PivotData) (dates : List ℕ) (selected : List String)
    (m : String) (col : List (Option RawVal)) (hcol : alookup p.metrics m = some col)
    (hm : m ∈ selected) (key : String × String × ℕ) :
    ∀ (idx : List ℕ) (lk : Lookup),
      rawAt (idx.foldl (updateLookup p dates selected) lk) key m =
        (match (idx.filter (fun i => keyAt p dates i = key)).getLast? with
         | some j => col.getD j none
         | none => rawAt lk key m) := by
  intro idx
  induction idx with
  | nil => intro lk; rfl
  | cons i t ih =>
      intro lk
      rw [List.foldl_cons, ih]
      by_cases hk : keyAt p dates i = key
      · rw [List.filter_cons_of_pos (by simpa using hk)]
        match hg : (t.filter (fun i => keyAt p dates i = key)).getLast? with
        | some j =>
            have : ((i :: t.filter (fun i => keyAt p dates i = key)).getLast?) = some j := by
              rw [List.getLast?_cons, hg]
              rfl
            rw [this]
        | none =>
            have hfe : t.filter (fun i => keyAt p dates i = key) = [] :=
              List.getLast?_eq_none_iff.mp hg
            rw [hfe]
            show rawAt (updateLookup p dates selected lk i) key m = col.getD i none
            rw [rawAt_updateLookup_present p dates selected m col hcol hm, if_pos hk]
      · rw [List.filter_cons_of_neg (by simpa using hk)]
        match hg : (t.filter (fun i => keyAt p dates i = key)).getLast? with
        | some j => rfl
        | none =>
            show rawAt (updateLookup p dates selected lk i) key m = rawAt lk key m
            rw [rawAt_updateLookup_present p dates selected m col hcol hm, if_neg hk]

/-- The finished lookup's raw value for a present, selected metric at
a key is the column value of the last input row bearing that key. -/
theorem rawAt_buildLookup_present (p : PivotData) (dates : List ℕ)
    (selected : List String) (m : String) (col : List (Option RawVal))
    (hcol : alookup p.metrics m = some col) (hm : m ∈ selected)
    (key : String × String × ℕ) :
    rawAt (buildLookup p dates selected) key m =
      (match ((List.range dates.length).filter (fun i => keyAt p dates i = key)).getLast? with
       | some j => col.getD j none
       | none => none) := by
  rw [buildLookup, rawAt_foldl_present p dates selected m col hcol hm]
  match hg : (((List.range dates.length)).filter (fun i => keyAt p dates i = key)).getLast? with
  | some j => rfl
  | none => rfl

/-- On non-empty input `process_pivot_data` is the flat map of
`pivotRow` over the sorted pairs (outer) and the selected metrics
(inner). -/
theorem process_pivot_data_some (cfg : MetricsConfig) (p : PivotData) (dates : List ℕ)
    (selected : List String) (cb : Bool)
    (hrd : p.Reporting_Date = some dates) (hne : dates ≠ []) :
    process_pivot_data cfg (some p) selected cb =
      some (pivotRows cfg p dates selected cb) := by
  have hlen : ¬ dates.length = 0 := fun hc => hne (List.length_eq_zero.mp hc)
  simp only [process_pivot_data, hrd]
  rw [if_neg hlen]

/-- The cell labels of every emitted row are the distinct dates'
labels, in `unique_dates` order. -/
theorem pivotRow_cells_labels (cfg : MetricsConfig) (lk : Lookup) (uds : List ℕ)
    (cb : Bool) (c : String × String) (m : String) :
    (pivotRow cfg lk uds cb c m).cells.map Prod.fst = uds.map dateLabel := by
  show (uds.map _).map Prod.fst = uds.map dateLabel
  rw [List.map_map]
  rfl

/-- Claim C8: `build_line_chart` returns the no-data figure with an
empty plan list when the input is absent, lacks `Plan_Name`, or has an
empty `Plan_Name` sequence; otherwise it lists the distinct plan names
sorted ascending and builds exactly one series per distinct plan (the
trace names are that sorted list, and for each plan the trace holding
its sorted 0-substituted points is present); every series' points are
the plan's input rows with 0 substituted for null values (no synthetic
points added), sorted ascending by date. -/
theorem C8_build_line_chart_series (d : ChartData) (names : List String)
    (hn : d.Plan_Name = some names) (hne : names ≠ [])
    (h1 : d.Reporting_Date.length = names.length)
    (h2 : d.metric_value.length = names.length) :
    (build_line_chart none = ({ no_data := true, traces := [] }, [])) ∧
    (∀ d0 : ChartData, d0.Plan_Name = none →
      build_line_chart (some d0) = ({ no_data := true, traces := [] }, [])) ∧
    (∀ d0 : ChartData, d0.Plan_Name = some [] →
      build_line_chart (some d0) = ({ no_data := true, traces := [] }, [])) ∧
    (build_line_chart (some d)).2.Sorted (fun a b => a ≤ b) ∧
    (build_line_chart (some d)).2.Nodup ∧
    (∀ x, x ∈ (build_line_chart (some d)).2 ↔ x ∈ names) ∧
    (build_line_chart (some d)).1.no_data = false ∧
    ((build_line_chart (some d)).1.traces.map Trace.name = uniquePlans names) ∧
    (∀ plan ∈ uniquePlans names,
      ({ name := plan,
         points := (planPoints (chartObs names d) plan).insertionSort lexLe } : Trace) ∈
        (build_line_chart (some d)).1.traces) ∧
    (∀ t ∈ (build_line_chart (some d)).1.traces,
      t.points.Perm (planPoints (chartObs names d) t.name) ∧
      t.points.Sorted lexLe ∧
      (t.points.map Prod.fst).Sorted (fun a b => a ≤ b)) := by
  have hclosed := build_line_chart_closed_form d names hn hne h1 h2
  refine ⟨rfl, ?_, ?_, ?_, ?_, ?_, ?_, ?_, ?_, ?_⟩
  · intro d0 h0
    simp [build_line_chart, h0]
  · intro d0 h0
    simp [build_line_chart, h0]
  · rw [hclosed]
    exact sorted_uniquePlans names
  · rw [hclosed]
    exact nodup_uniquePlans names
  · intro x
    rw [hclosed]
    exact mem_uniquePlans names x
  · rw [hclosed]
  · rw [hclosed]
    simp only [List.map_map]
    calc List.map (Trace.name ∘ fun plan =>
            ({ name := plan,
               points := (planPoints (chartObs names d) plan).insertionSort lexLe } : Trace))
          (uniquePlans names)
        = List.map id (uniquePlans names) := List.map_congr_left (fun a _ => rfl)
      _ = uniquePlans names := List.map_id _
  · intro plan hplan
    rw [hclosed]
    exact List.mem_map.mpr ⟨plan, hplan, rfl⟩
  · intro t ht
    rw [hclosed] at ht
    simp only [List.mem_map] at ht
    obtain ⟨plan, _, rfl⟩ := ht
    refine ⟨List.perm_insertionSort _ _, List.sorted_insertionSort _ _, ?_⟩
    exact sorted_fst_of_sorted_lexLe _ (List.sorted_insertionSort _ _)

/-- Claim C8 witness: one plan `P` with points `[(1, 5), (2, null)]`;
the figure holds exactly the trace named `P`, its points evaluate to
`[(1, 5), (2, 0)]`, i.e. values `[5, 0]` in date order. -/
theorem C8_witness :
    (build_line_chart none = ({ no_data := true, traces := [] }, [])) ∧
    (∀ d0 : ChartData, d0.Plan_Name = none →
      build_line_chart (some d0) = ({ no_data := true, traces := [] }, [])) ∧
    (∀ d0 : ChartData, d0.Plan_Name = some [] →
      build_line_chart (some d0) = ({ no_data := true, traces := [] }, [])) ∧
    (build_line_chart (some ⟨some ["P", "P"], [1, 2], [some 5, none]⟩)).2.Sorted
      (fun a b => a ≤ b) ∧
    (build_line_chart (some ⟨some ["P", "P"], [1, 2], [some 5, none]⟩)).2.Nodup ∧
    (∀ x, x ∈ (build_line_chart (some ⟨some ["P", "P"], [1, 2], [some 5, none]⟩)).2 ↔
      x ∈ ["P", "P"]) ∧
    (build_line_chart (some ⟨some ["P", "P"], [1, 2], [some 5, none]⟩)).1.no_data = false ∧
    ((build_line_chart (some ⟨some ["P", "P"], [1, 2],
        [some 5, none]⟩)).1.traces.map Trace.name = uniquePlans ["P", "P"]) ∧
    (∀ plan ∈ uniquePlans ["P", "P"],
      ({ name := plan,
         points := (planPoints (chartObs ["P", "P"]
           ⟨some ["P", "P"], [1, 2], [some 5, none]⟩) plan).insertionSort lexLe } : Trace) ∈
        (build_line_chart (some ⟨some ["P", "P"], [1, 2], [some 5, none]⟩)).1.traces) ∧
    (∀ t ∈ (build_line_chart (some ⟨some ["P", "P"], [1, 2], [some 5, none]⟩)).1.traces,
      t.points.Perm
        (planPoints (chartObs ["P", "P"] ⟨some ["P", "P"], [1, 2], [some 5, none]⟩) t.name) ∧
      t.points.Sorted lexLe ∧
      (t.points.map Prod.fst).Sorted (fun a b => a ≤ b)) ∧
    ({ name := "P", points := [(1, 5), (2, 0)] } : Trace) ∈
      (build_line_chart (some ⟨some ["P", "P"], [1, 2], [some 5, none]⟩)).1.traces ∧
    ([((1 : ℕ), (5 : ℚ)), (2, 0)].map Prod.snd = [5, 0]) := by
  have h := C8_build_line_chart_series ⟨some ["P", "P"], [1, 2], [some 5, none]⟩
    ["P", "P"] rfl (by decide) rfl rfl
  obtain ⟨h1, h2, h3, h4, h5, h6, h7, h8, h9, h10⟩ := h
  have hpts : (planPoints (chartObs ["P", "P"]
      ⟨some ["P", "P"], [1, 2], [some 5, none]⟩) "P").insertionSort lexLe =
      [(1, 5), (2, 0)] := by
    norm_num [planPoints, chartObs, List.insertionSort, List.orderedInsert, lexLe]
  have hP : "P" ∈ uniquePlans ["P", "P"] := by decide
  have hmem := h9 "P" hP
  rw [hpts] at hmem
  exact ⟨h1, h2, h3, h4, h5, h6, h7, h8, h9, h10, hmem, rfl⟩

/-- Claim C10: one trace per distinct plan name; a plan's trace keeps
one point per input row of that plan (duplicates are kept, nothing is
merged), ordered ascending by the `(date, value)` pair. -/
theorem C10_one_trace_per_plan (d : ChartData) (names : List String)
    (hn : d.Plan_Name = some names) (hne : names ≠ [])
    (h1 : d.Reporting_Date.length = names.length)
    (h2 : d.metric_value.length = names.length) :
    ((build_line_chart (some d)).1.traces.map Trace.name = uniquePlans names) ∧
    (uniquePlans names).Nodup ∧
    (∀ x, x ∈ uniquePlans names ↔ x ∈ names) ∧
    (∀ t ∈ (build_line_chart (some d)).1.traces,
      t.points.length = (names.filter (fun s => s = t.name)).length ∧
      t.points.Perm (planPoints (chartObs names d) t.name) ∧
      t.points.Sorted lexLe) := by
  have hclosed := build_line_chart_closed_form d names hn hne h1 h2
  refine ⟨?_, nodup_uniquePlans names, mem_uniquePlans names, ?_⟩
  · rw [hclosed]
    simp only [List.map_map]
    calc List.map (Trace.name ∘ fun plan =>
            ({ name := plan,
               points := (planPoints (chartObs names d) plan).insertionSort lexLe } : Trace))
          (uniquePlans names)
        = List.map id (uniquePlans names) := List.map_congr_left (fun a _ => rfl)
      _ = uniquePlans names := List.map_id _
  · intro t ht
    rw [hclosed] at ht
    simp only [List.mem_map] at ht
    obtain ⟨plan, _, rfl⟩ := ht
    refine ⟨?_, List.perm_insertionSort _ _, List.sorted_insertionSort _ _⟩
    have hlen : (List.insertionSort lexLe (planPoints (chartObs names d) plan)).length =
        (planPoints (chartObs names d) plan).length :=
      (List.perm_insertionSort _ _).length_eq
    rw [hlen, planPoints, List.length_map]
    have hfst := chartObs_map_fst names d h1 h2
    have hcomp : (fun (x : String × ℕ × ℚ) => decide (x.1 = plan)) =
        ((fun (s : String) => decide (s = plan)) ∘ Prod.fst) := rfl
    calc ((chartObs names d).filter (fun x => x.1 = plan)).length
        = (((chartObs names d).filter (fun x => x.1 = plan)).map Prod.fst).length := by
          rw [List.length_map]
      _ = (names.filter (fun s => s = plan)).length := by
          rw [hcomp, ← List.filter_map Prod.fst (chartObs names d), hfst]

/-- Claim C10 witness: plan `B` occurs on two input rows (one of them
a null value), plan `A` on one. -/
theorem C10_witness :
    ((build_line_chart (some ⟨some ["B", "A", "B"], [3, 1, 2],
        [none, some 1, some 4]⟩)).1.traces.map Trace.name = uniquePlans ["B", "A", "B"]) ∧
    (uniquePlans ["B", "A", "B"]).Nodup ∧
    (∀ x, x ∈ uniquePlans ["B", "A", "B"] ↔ x ∈ ["B", "A", "B"]) ∧
    (∀ t ∈ (build_line_chart (some ⟨some ["B", "A", "B"], [3, 1, 2],
        [none, some 1, some 4]⟩)).1.traces,
      t.points.length = (["B", "A", "B"].filter (fun s => s = t.name)).length ∧
      t.points.Perm (planPoints (chartObs ["B", "A", "B"]
        ⟨some ["B", "A", "B"], [3, 1, 2], [none, some 1, some 4]⟩) t.name) ∧
      t.points.Sorted lexLe) :=
  C10_one_trace_per_plan ⟨some ["B", "A", "B"], [3, 1, 2], [none, some 1, some 4]⟩
    ["B", "A", "B"] rfl (by decide) rfl rfl

/-- Claim C5: an expired session is reported invalid and deleted by
the `get_session` call that discovers it; a second call with the same
id also returns `none` and leaves the store as it is (idempotent
expiry); an empty or unknown session id also yields `none`. -/
theorem C5_get_session_expired_idempotent (now now2 : ℕ) (st : Sessions) (sid : String)
    (s : Session) (hsid : sid ≠ "") (hfound : alookup st sid = some s)
    (hexp : s.expires_at < now) :
    get_session now st sid = (none, aerase st sid) ∧
    alookup (aerase st sid) sid = none ∧
    get_session now2 (aerase st sid) sid = (none, aerase st sid) ∧
    (∀ (st0 : Sessions) (now0 : ℕ), get_session now0 st0 "" = (none, st0)) ∧
    (∀ (st0 : Sessions) (now0 : ℕ) (sid0 : String), alookup st0 sid0 = none →
      get_session now0 st0 sid0 = (none, st0)) := by
  refine ⟨?_, alookup_aerase_self st sid, ?_, ?_, ?_⟩
  · simp [get_session, hsid, hfound, hexp]
  · simp [get_session, hsid, alookup_aerase_self]
  · intro st0 now0
    simp [get_session]
  · intro st0 now0 sid0 hnone
    by_cases h0 : sid0 = "" <;> simp [get_session, h0, hnone]

/-- Claim C5 witness: a concrete store holding one session that
expired at time 10, validated at times 11 and 12. -/
theorem C5_witness :
    get_session 11 [("t", ⟨"u", "n", "r", 10⟩)] "t" = (none, aerase [("t", ⟨"u", "n", "r", 10⟩)] "t") ∧
    alookup (aerase [("t", (⟨"u", "n", "r", 10⟩ : Session))] "t") "t" = none ∧
    get_session 12 (aerase [("t", ⟨"u", "n", "r", 10⟩)] "t") "t" =
      (none, aerase [("t", ⟨"u", "n", "r", 10⟩)] "t") ∧
    (∀ (st0 : Sessions) (now0 : ℕ), get_session now0 st0 "" = (none, st0)) ∧
    (∀ (st0 : Sessions) (now0 : ℕ) (sid0 : String), alookup st0 sid0 = none →
      get_session now0 st0 sid0 = (none, st0)) :=
  C5_get_session_expired_idempotent 11 12 [("t", ⟨"u", "n", "r", 10⟩)] "t" ⟨"u", "n", "r", 10⟩
    (by decide) rfl (by decide)

/-- Claim C6: every failing `authenticate` call — user directory
unavailable (`IMPORTS_OK` false), unknown user id, or password not
equal to the stored secret — returns the same triple
`(False, None, None)` and leaves the session store unchanged. -/
theorem C6_authenticate_failure_uniform (imports_ok : Bool) (users : List (String × User))
    (st : Sessions) (uid pw tok : String) (now : ℕ)
    (hfail : imports_ok = false ∨ alookup users uid = none ∨
      (∃ u, alookup users uid = some u ∧ u.password ≠ pw)) :
    authenticate imports_ok users st uid pw tok now = ((false, none, none), st) := by
  rcases hfail with h | h | ⟨u, hu, hpw⟩
  · simp [authenticate, h]
  · cases imports_ok <;> simp [authenticate, h]
  · cases imports_ok <;> simp [authenticate, hu, hpw]

/-- Claim C6 witness: a wrong password against a one-user directory. -/
theorem C6_witness :
    authenticate true [("admin", ⟨"admin123", "Admin", "admin"⟩)] [] "admin" "nope" "t" 0 =
      ((false, none, none), []) :=
  C6_authenticate_failure_uniform true [("admin", ⟨"admin123", "Admin", "admin"⟩)] []
    "admin" "nope" "t" 0
    (Or.inr (Or.inr ⟨⟨"admin123", "Admin", "admin"⟩, rfl, by decide⟩))

/-- Claim C7: a successful `authenticate` call appends exactly one new
session, keyed by the fresh token, expiring `now` + 24 hours, and
returns the prior store unchanged as a prefix (earlier sessions are
neither reused nor removed). -/
theorem C7_authenticate_success_appends (users : List (String × User)) (st : Sessions)
    (uid pw tok : String) (now : ℕ) (u : User)
    (hu : alookup users uid = some u) (hpw : u.password = pw)
    (hfresh : alookup st tok = none) :
    authenticate true users st uid pw tok now =
      ((true, some tok, some u),
        st ++ [(tok, ⟨uid, u.name, u.role, now + DAY_SECONDS⟩)]) ∧
    (st ++ [(tok, (⟨uid, u.name, u.role, now + DAY_SECONDS⟩ : Session))]).length =
      st.length + 1 := by
  constructor
  · simp only [authenticate, hu, hpw]
    simp [aupdate_eq_append st tok _ hfresh]
  · simp

/-- Claim C7 witness: a concrete successful login over a store that
already holds one session; the old session survives untouched. -/
theorem C7_witness :
    authenticate true [("admin", ⟨"admin123", "Admin", "admin"⟩)]
        [("old", ⟨"admin", "Admin", "admin", 99⟩)] "admin" "admin123" "t" 0 =
      ((true, some "t", some ⟨"admin123", "Admin", "admin"⟩),
        [("old", ⟨"admin", "Admin", "admin", 99⟩)] ++
          [("t", ⟨"admin", "Admin", "admin", 0 + DAY_SECONDS⟩)]) ∧
    ([("old", (⟨"admin", "Admin", "admin", 99⟩ : Session))] ++
      [("t", (⟨"admin", "Admin", "admin", 0 + DAY_SECONDS⟩ : Session))]).length =
      [("old", (⟨"admin", "Admin", "admin", 99⟩ : Session))].length + 1 :=
  C7_authenticate_success_appends [("admin", ⟨"admin123", "Admin", "admin"⟩)]
    [("old", ⟨"admin", "Admin", "admin", 99⟩)] "admin" "admin123" "t" 0
    ⟨"admin123", "Admin", "admin"⟩ rfl rfl rfl

/-- Claim C3: `process_pivot_data` returns the `none` sentinel exactly
when the input is absent, lacks the `Reporting_Date` sequence, or that
sequence is empty; on every other input it returns a row list. -/
theorem C3_pivot_none_iff (cfg : MetricsConfig) (pivot_data : Option PivotData)
    (selected_metrics : List String) (is_crystal_ball : Bool) :
    process_pivot_data cfg pivot_data selected_metrics is_crystal_ball = none ↔
      (pivot_data = none ∨
        ∃ p, pivot_data = some p ∧
          (p.Reporting_Date = none ∨ p.Reporting_Date = some [])) := by
  match pivot_data with
  | none => simp [process_pivot_data]
  | some p =>
    match hrd : p.Reporting_Date with
    | none => simp [process_pivot_data, hrd]
    | some dates =>
      match dates with
      | [] => simp [process_pivot_data, hrd]
      | d :: rest => simp [process_pivot_data, hrd]

/-- Claim C4: `format_metric_value` agrees with the spec's formatting
rule on every input (null/NaN to null, `Rebills` + crystal-ball to
nearest integer, percent metrics scaled by 100 and rounded to 2
places, everything else rounded to 2 places, coercion failure to
null); in particular `0.1234` under a percent metric formats to
`12.34` and a null value always formats to null. -/
theorem C4_format_metric_value_spec :
    (∀ (cfg : MetricsConfig) (value : Option RawVal) (metric_name : String)
      (is_crystal_ball : Bool),
      format_metric_value cfg value metric_name is_crystal_ball =
        formatValue_spec cfg value metric_name is_crystal_ball) ∧
    format_metric_value [("P", ⟨some "percent", none, none⟩)]
      (some (RawVal.num (1234/10000))) "P" false = some (1234/100) ∧
    (∀ (cfg : MetricsConfig) (metric_name : String) (is_crystal_ball : Bool),
      format_metric_value cfg none metric_name is_crystal_ball = none) := by
  refine ⟨?_, ?_, ?_⟩
  · intro cfg value metric_name is_crystal_ball
    cases value with
    | none => rfl
    | some v => cases v <;> rfl
  · have : formatTypeOf [("P", ⟨some "percent", none, none⟩)] "P" = "percent" := rfl
    simp only [format_metric_value, this]
    norm_num [pyRound2, pyRound, round_eq]
  · intro cfg metric_name is_crystal_ball
    rfl

/-- Claim C1: on non-empty input the pivot emits exactly one row per
distinct `(App_Name, Plan_Name)` pair and selected metric; pairs are
sorted ascending lexicographically on the outside, metrics follow the
caller-supplied order contiguously on the inside; the date columns are
the distinct reporting dates sorted descending; a selected metric with
no column in the records yields a row whose date cells are all null
rather than an omitted row. -/
theorem C1_pivot_row_and_column_order (cfg : MetricsConfig) (p : PivotData)
    (dates : List ℕ) (selected : List String) (cb : Bool)
    (hrd : p.Reporting_Date = some dates) (hne : dates ≠ []) :
    process_pivot_data cfg (some p) selected cb =
      some (pivotRows cfg p dates selected cb) ∧
    (pivotRows cfg p dates selected cb).map (fun r => ((r.App, r.Plan), r.Metric)) =
      (planCombos p).flatMap (fun c =>
        selected.map (fun m => (c, get_display_metric_name cfg m))) ∧
    (pivotRows cfg p dates selected cb).length =
      (planCombos p).length * selected.length ∧
    (planCombos p).Sorted lexLe ∧
    (planCombos p).Nodup ∧
    (∀ c, c ∈ planCombos p ↔ c ∈ p.App_Name.zip p.Plan_Name) ∧
    (∀ r ∈ pivotRows cfg p dates selected cb,
      r.cells.map Prod.fst = (uniqueDates dates).map dateLabel) ∧
    (uniqueDates dates).Sorted (fun a b => a ≥ b) ∧
    (uniqueDates dates).Nodup ∧
    (∀ x, x ∈ uniqueDates dates ↔ x ∈ dates) ∧
    (∀ c ∈ planCombos p, ∀ m ∈ selected, alookup p.metrics m = none →
      pivotRow cfg (buildLookup p dates selected) (uniqueDates dates) cb c m ∈
        pivotRows cfg p dates selected cb ∧
      ∀ cell ∈ (pivotRow cfg (buildLookup p dates selected)
        (uniqueDates dates) cb c m).cells, cell.2 = none) := by
  refine ⟨process_pivot_data_some cfg p dates selected cb hrd hne, ?_, ?_,
    planCombos_sorted p, planCombos_nodup p, mem_planCombos p, ?_,
    uniqueDates_sorted dates, uniqueDates_nodup dates, mem_uniqueDates dates, ?_⟩
  · rw [pivotRows, List.map_flatMap]
    have hfun : (fun c => (selected.map (fun m =>
        pivotRow cfg (buildLookup p dates selected) (uniqueDates dates) cb c m)).map
          (fun r => ((r.App, r.Plan), r.Metric))) =
        (fun c => selected.map (fun m => (c, get_display_metric_name cfg m))) := by
      funext c
      rw [List.map_map]
      rfl
    rw [hfun]
  · exact length_flatMap_const _ _ _ (fun c hc => List.length_map _ _)
  · intro r hr
    rw [pivotRows, List.mem_flatMap] at hr
    obtain ⟨c, hc, hr⟩ := hr
    rw [List.mem_map] at hr
    obtain ⟨m, hm, rfl⟩ := hr
    exact pivotRow_cells_labels cfg _ _ cb c m
  · intro c hc m hm habs
    refine ⟨?_, ?_⟩
    · rw [pivotRows, List.mem_flatMap]
      exact ⟨c, hc, List.mem_map.mpr ⟨m, hm, rfl⟩⟩
    · intro cell hcell
      have hmem : cell ∈ (uniqueDates dates).map (fun d =>
          (dateLabel d, format_metric_value cfg
            (rawAt (buildLookup p dates selected) (c.1, c.2, d) m) m cb)) := hcell
      rw [List.mem_map] at hmem
      obtain ⟨d, _, rfl⟩ := hmem
      show format_metric_value cfg
        (rawAt (buildLookup p dates selected) (c.1, c.2, d) m) m cb = none
      rw [rawAt_buildLookup_absent p dates selected m habs]
      rfl

/-- Claim C1 witness: two plans, two dates, selected metrics
`["M1", "M2"]` with `M2` absent from the records. -/
theorem C1_witness :
    process_pivot_data [] (some samplePivot) ["M1", "M2"] false =
      some (pivotRows [] samplePivot [1, 2] ["M1", "M2"] false) ∧
    (pivotRows [] samplePivot [1, 2] ["M1", "M2"] false).map
        (fun r => ((r.App, r.Plan), r.Metric)) =
      (planCombos samplePivot).flatMap (fun c =>
        ["M1", "M2"].map (fun m => (c, get_display_metric_name [] m))) ∧
    (pivotRows [] samplePivot [1, 2] ["M1", "M2"] false).length =
      (planCombos samplePivot).length * (["M1", "M2"] : List String).length ∧
    (planCombos samplePivot).Sorted lexLe ∧
    (planCombos samplePivot).Nodup ∧
    (∀ c, c ∈ planCombos samplePivot ↔
      c ∈ samplePivot.App_Name.zip samplePivot.Plan_Name) ∧
    (∀ r ∈ pivotRows [] samplePivot [1, 2] ["M1", "M2"] false,
      r.cells.map Prod.fst = (uniqueDates [1, 2]).map dateLabel) ∧
    (uniqueDates [1, 2]).Sorted (fun a b => a ≥ b) ∧
    (uniqueDates [1, 2]).Nodup ∧
    (∀ x, x ∈ uniqueDates [1, 2] ↔ x ∈ [1, 2]) ∧
    (∀ c ∈ planCombos samplePivot, ∀ m ∈ (["M1", "M2"] : List String),
      alookup samplePivot.metrics m = none →
      pivotRow [] (buildLookup samplePivot [1, 2] ["M1", "M2"])
        (uniqueDates [1, 2]) false c m ∈
        pivotRows [] samplePivot [1, 2] ["M1", "M2"] false ∧
      ∀ cell ∈ (pivotRow [] (buildLookup samplePivot [1, 2] ["M1", "M2"])
        (uniqueDates [1, 2]) false c m).cells, cell.2 = none) :=
  C1_pivot_row_and_column_order [] samplePivot [1, 2] ["M1", "M2"] false rfl (by decide)

/-- Claim C9: the date column labels of the pivot output are exactly
the labels of the distinct input reporting dates — the transform
neither adds nor drops a date. -/
theorem C9_date_columns_roundtrip (cfg : MetricsConfig) (p : PivotData)
    (dates : List ℕ) (selected : List String) (cb : Bool)
    (hrd : p.Reporting_Date = some dates) (hne : dates ≠ []) :
    process_pivot_data cfg (some p) selected cb =
      some (pivotRows cfg p dates selected cb) ∧
    (∀ r ∈ pivotRows cfg p dates selected cb,
      r.cells.map Prod.fst = (uniqueDates dates).map dateLabel) ∧
    (uniqueDates dates).Nodup ∧
    (∀ x, x ∈ uniqueDates dates ↔ x ∈ dates) := by
  refine ⟨process_pivot_data_some cfg p dates selected cb hrd hne, ?_,
    uniqueDates_nodup dates, mem_uniqueDates dates⟩
  intro r hr
  rw [pivotRows, List.mem_flatMap] at hr
  obtain ⟨c, hc, hr⟩ := hr
  rw [List.mem_map] at hr
  obtain ⟨m, hm, rfl⟩ := hr
  exact pivotRow_cells_labels cfg _ _ cb c m

/-- Claim C9 witness: the sample result set with dates `[1, 2]`. -/
theorem C9_witness :
    process_pivot_data [] (some samplePivot) ["M1"] false =
      some (pivotRows [] samplePivot [1, 2] ["M1"] false) ∧
    (∀ r ∈ pivotRows [] samplePivot [1, 2] ["M1"] false,
      r.cells.map Prod.fst = (uniqueDates [1, 2]).map dateLabel) ∧
    (uniqueDates [1, 2]).Nodup ∧
    (∀ x, x ∈ uniqueDates [1, 2] ↔ x ∈ [1, 2]) :=
  C9_date_columns_roundtrip [] samplePivot [1, 2] ["M1"] false rfl (by decide)

/-- Claim C2 (amended): when the same key occurs on several input
rows, the lookup keeps the per-metric raw values of the LAST
occurrence — later duplicate rows overwrite earlier ones, duplicates
are not an error — so every emitted cell for that key is formatted
from the last row bearing it. -/
theorem C2_lookup_last_occurrence_wins (cfg : MetricsConfig) (p : PivotData)
    (dates : List ℕ) (selected : List String) (cb : Bool) (m : String)
    (col : List (Option RawVal)) (a pl : String) (d j : ℕ)
    (hm : m ∈ selected) (hcol : alookup p.metrics m = some col)
    (hlast : ((List.range dates.length).filter
      (fun i => keyAt p dates i = (a, pl, d))).getLast? = some j) :
    rawAt (buildLookup p dates selected) (a, pl, d) m = col.getD j none ∧
    (d ∈ dates →
      (dateLabel d, format_metric_value cfg (col.getD j none) m cb) ∈
        (pivotRow cfg (buildLookup p dates selected) (uniqueDates dates) cb
          (a, pl) m).cells) := by
  have hraw : rawAt (buildLookup p dates selected) (a, pl, d) m = col.getD j none := by
    rw [rawAt_buildLookup_present p dates selected m col hcol hm, hlast]
  refine ⟨hraw, ?_⟩
  intro hd
  have hdu : d ∈ uniqueDates dates := (mem_uniqueDates dates d).mpr hd
  show (dateLabel d, format_metric_value cfg (col.getD j none) m cb) ∈
    (uniqueDates dates).map (fun d0 =>
      (dateLabel d0, format_metric_value cfg
        (rawAt (buildLookup p dates selected) (a, pl, d0) m) m cb))
  rw [List.mem_map]
  exact ⟨d, hdu, by rw [hraw]⟩

/-- Claim C2 witness (for the amended claim): the duplicate-key result
set; the last of the two rows (index 1, metric value 2) wins. -/
theorem C2_witness :
    rawAt (buildLookup dupPivot [5, 5] ["M"]) ("A", "P", 5) "M" =
      [some (RawVal.num 1), some (RawVal.num 2)].getD 1 none ∧
    (5 ∈ [5, 5] →
      (dateLabel 5, format_metric_value []
        ([some (RawVal.num 1), some (RawVal.num 2)].getD 1 none) "M" false) ∈
        (pivotRow [] (buildLookup dupPivot [5, 5] ["M"]) (uniqueDates [5, 5]) false
          ("A", "P") "M").cells) :=
  C2_lookup_last_occurrence_wins [] dupPivot [5, 5] ["M"] false "M"
    [some (RawVal.num 1), some (RawVal.num 2)] "A" "P" 5 1
    (by decide) rfl (by decide)

/-- Claim C2 counterexample to the first-occurrence reading: on
`dupPivot` the emitted cell is the formatted value of the SECOND row
(2), while formatting the first row's value yields 1 ≠ 2 — the `if key
not in lookup` guard only protects the inner dict's creation, not the
per-metric assignments, which run for every row. -/
theorem C2_counterexample :
    process_pivot_data [] (some dupPivot) ["M"] false =
      some [{ App := "A", Plan := "P", Metric := "M", cells := [("5", some 2)] }] ∧
    format_metric_value [] (some (RawVal.num 1)) "M" false = some 1 ∧
    ¬ ((2 : ℚ) = 1) := by
  have hraw : rawAt (buildLookup dupPivot [5, 5] ["M"]) ("A", "P", 5) "M" =
      some (RawVal.num 2) := by
    rw [rawAt_buildLookup_present dupPivot [5, 5] ["M"] "M"
      [some (RawVal.num 1), some (RawVal.num 2)] rfl (by decide) ("A", "P", 5)]
    have hl : (((List.range ([5, 5] : List ℕ).length)).filter
        (fun i => keyAt dupPivot [5, 5] i = ("A", "P", 5))).getLast? = some 1 := by
      decide
    rw [hl]
    rfl
  have h2 : pyRound2 2 = 2 := by norm_num [pyRound2, pyRound, round_eq]
  have h1 : pyRound2 1 = 1 := by norm_num [pyRound2, pyRound, round_eq]
  have hpc : planCombos dupPivot = [("A", "P")] := by decide
  have hud : uniqueDates [5, 5] = [5] := by decide
  refine ⟨?_, ?_, by norm_num⟩
  · rw [process_pivot_data_some [] dupPivot [5, 5] ["M"] false rfl (by decide)]
    rw [pivotRows, hpc]
    simp only [List.flatMap_cons, List.flatMap_nil, List.map_cons, List.map_nil,
      List.append_nil]
    have hft : formatTypeOf ([] : MetricsConfig) "M" = "number" := rfl
    have hlab : dateLabel 5 = "5" := rfl
    have hdm : get_display_metric_name [] "M" = "M" := rfl
    have hrow : pivotRow [] (buildLookup dupPivot [5, 5] ["M"]) (uniqueDates [5, 5])
        false ("A", "P") "M" =
        { App := "A", Plan := "P", Metric := "M", cells := [("5", some 2)] } := by
      rw [pivotRow, hud]
      simp only [List.map_cons, List.map_nil, hraw, hlab, hdm]
      rw [format_metric_value, if_neg (by decide), hft, if_neg (by decide), h2]
    rw [hrow]
  · have hft : formatTypeOf ([] : MetricsConfig) "M" = "number" := rfl
    rw [format_metric_value, if_neg (by decide), hft, if_neg (by decide), h1]
